import Mathlib

/-!
Verification development for the KnowledgeOS knowledge-graph core.

The Python sources are shallowly embedded:
* Python strings are modelled as lists of characters (`Str`), with Python's
  lexicographic string comparison embedded as `pyStrLt`.
* `datetime` values are modelled as natural-number ticks; every operation that
  reads the current clock (`datetime.utcnow()` / `datetime.now()`) receives the
  current time `now` as an explicit argument.
* Python dicts (which preserve insertion order) are modelled as ordered
  association lists; in-place mutation becomes functional update.
* Python floats that carry scores/confidences are modelled as rationals.
* Code that can raise returns `Except`.

Embedded modules:
* `src/python/models/entities.py` — `ConfidenceLevel`, `EntityType`,
  `Attribute`, `Entity`, `Entity.add_attribute`, the `updated_at` validator.
* `src/python/services/knowledge_graph.py` — `merge_entity`,
  `determine_canonical_locations`, `resolve_conflicts`.
* `src/python/knowledge_agents.py` — the agent data model,
  `ConflictResolutionAgent.process`, `Entity.merge_with`,
  `CanonicalLocationAgent.process`.
* `src/python/enhanced_knowledge_service.py` — `deduplicate_results`,
  `rank_results`, the hybrid `search_knowledge` pipeline, `merge_content`,
  `find_overlap`.
-/

/-- Python strings, modelled as lists of characters. -/
abbrev Str := List Char

/-- Coerce a Lean string literal into the `Str` model. -/
def str (s : String) : Str := s.toList

/-- Python's `<` on strings: lexicographic comparison by code point. -/
def pyStrLt : Str → Str → Bool
  | [], [] => false
  | [], _ :: _ => true
  | _ :: _, [] => false
  | a :: as, b :: bs => if a < b then true else if b < a then false else pyStrLt as bs

/-- Python's `>` on strings. -/
def pyStrGt (a b : Str) : Bool := pyStrLt b a

namespace KOS

/-- `ConfidenceLevel` from `models/entities.py` (a `str` enum). -/
inductive ConfidenceLevel where
  | verified
  | high
  | medium
  | low
  | uncertain
deriving DecidableEq, Repr

/-- The `.value` string of each `ConfidenceLevel` member. -/
def ConfidenceLevel.val : ConfidenceLevel → Str
  | .verified => str "verified"
  | .high => str "high"
  | .medium => str "medium"
  | .low => str "low"
  | .uncertain => str "uncertain"

/-- The intended ordinal rank of a confidence level
(verified > high > medium > low > uncertain), as stated by the spec. -/
def ordRank : ConfidenceLevel → Nat
  | .verified => 4
  | .high => 3
  | .medium => 2
  | .low => 1
  | .uncertain => 0

/-- `EntityType` from `models/entities.py`. -/
inductive EntityType where
  | person
  | organization
  | project
  | skill
  | location
  | event
  | concept
  | document
  | task
  | goal
deriving DecidableEq, Repr

/-- `Attribute` from `models/entities.py`.  The dynamically typed `value`
field is modelled as a string. -/
structure Attribute where
  key : Str
  value : Str
  confidence : ConfidenceLevel
  source : Str
  timestamp : Nat
  version : Nat
deriving DecidableEq, Repr

/-- `Entity` from `models/entities.py`.  `embeddings` (optional float vector)
and `canonical_file` are omitted: no claim mentions them.  The `attributes`
dict is an insertion-ordered association list from key to version list. -/
structure Entity where
  id : Str
  etype : EntityType
  name : Str
  aliases : List Str
  attributes : List (Str × List Attribute)
  confidence : ConfidenceLevel
  created_at : Nat
  updated_at : Nat
  sources : List Str
deriving DecidableEq, Repr

/-- Dict lookup on an ordered association list (first matching key wins,
like a Python dict, which cannot hold duplicate keys). -/
def lookupA {α : Type} : List (Str × α) → Str → Option α
  | [], _ => none
  | kv :: rest, k => if kv.1 = k then some kv.2 else lookupA rest k

/-- Dict store `m[k] = v`: replace the value at an existing key in place,
or append a fresh key at the end (Python dicts keep insertion order). -/
def setEntry {α : Type} : List (Str × α) → Str → α → List (Str × α)
  | [], k, v => [(k, v)]
  | (k', v') :: rest, k, v =>
      if k' = k then (k, v) :: rest else (k', v') :: setEntry rest k v

/-- Version list stored under attribute key `k` (empty when `k` is absent). -/
def getAttrs (m : List (Str × List Attribute)) (k : Str) : List Attribute :=
  (lookupA m k).getD []

/-- Replace the first element satisfying `p` (Python's
`next((x for x in xs if p x), None)` followed by in-place mutation). -/
def updateFirst {α : Type} (p : α → Bool) (f : α → α) : List α → List α
  | [] => []
  | a :: as => if p a then f a :: as else a :: updateFirst p f as

/-- `Entity.add_attribute` from `models/entities.py`: if some stored version
under `key` already has this `value`, bump its confidence when the incoming
confidence's *string* compares greater (Python compares the enum `.value`
strings) and refresh its timestamp; otherwise append a new version. -/
def Entity.add_attribute (e : Entity) (key value source : Str)
    (confidence : ConfidenceLevel) (now : Nat) : Entity :=
  let attrs := getAttrs e.attributes key
  let attrs' :=
    if attrs.any (fun a => a.value == value) then
      updateFirst (fun a => a.value == value)
        (fun a =>
          { a with
            confidence :=
              if pyStrGt confidence.val a.confidence.val then confidence
              else a.confidence,
            timestamp := now }) attrs
    else
      attrs ++ [{ key := key, value := value, confidence := confidence,
                  source := source, timestamp := now, version := 1 }]
  { e with attributes := setEntry e.attributes key attrs' }

/-- The `updated_at` validator of `Entity` (`pre=True, always=True`): the
supplied value is ignored and the current time is returned. -/
def set_updated_at (v : Option Nat) (now : Nat) : Nat := now

/-- Constructing (or re-validating) an `Entity`: pydantic runs the
`set_updated_at` validator on the supplied `updated_at`, so the stored
`updated_at` is always the validation-time clock. -/
def mkEntity (id_ : Str) (etype : EntityType) (name : Str)
    (created_at : Nat) (supplied_updated_at : Option Nat) (now : Nat) : Entity :=
  { id := id_, etype := etype, name := name, aliases := [], attributes := [],
    confidence := .high, created_at := created_at,
    updated_at := set_updated_at supplied_updated_at now, sources := [] }

/-- The entity store of `KnowledgeGraphManager` (`self.entities`). -/
abbrev Store := List (Str × Entity)

/-- Alias-union loop of `merge_entity`: append each new alias not present. -/
def mergeAliases (existing : List Str) (incoming : List Str) : List Str :=
  incoming.foldl (fun acc al => if al ∈ acc then acc else acc ++ [al]) existing

/-- Attribute-merge loop of `merge_entity`: every incoming version is pushed
through `add_attribute` on the existing entity. -/
def mergeAttrLoop (existing : Entity) (incomingAttrs : List (Str × List Attribute))
    (source : Str) (now : Nat) : Entity :=
  incomingAttrs.foldl
    (fun acc kv =>
      kv.2.foldl (fun e a => e.add_attribute kv.1 a.value source a.confidence now) acc)
    existing

/-- `KnowledgeGraphManager.merge_entity` (embedding averaging omitted — no
claim mentions embeddings): insert a new entity verbatim, or merge attributes
and aliases into the existing record and refresh `updated_at`. -/
def merge_entity (store : Store) (newE : Entity) (source : Str) (now : Nat) :
    Store × Entity :=
  match lookupA store newE.id with
  | none => (setEntry store newE.id newE, newE)
  | some existing =>
      let merged0 := mergeAttrLoop existing newE.attributes source now
      let merged := { merged0 with
                        aliases := mergeAliases merged0.aliases newE.aliases,
                        updated_at := now }
      (setEntry store newE.id merged, merged)

/-- Python's `max(attrs, key=lambda x: (x.confidence.value, x.timestamp))`:
keep the first maximal element under the lexicographic tuple order, where the
first component is compared as a *string*. -/
def pyMaxAttr (best : Attribute) : List Attribute → Attribute
  | [] => best
  | a :: as =>
      pyMaxAttr
        (if pyStrGt a.confidence.val best.confidence.val
            ∨ (a.confidence.val = best.confidence.val ∧ best.timestamp < a.timestamp)
         then a else best) as

/-- Error raised by the Python runtime. -/
inductive PyErr where
  | valueError
deriving DecidableEq, Repr

/-- The per-key loop of `resolve_conflicts`: replace each version list by the
singleton best version; `max` of an empty sequence raises `ValueError`. -/
def resolveAttrs : List (Str × List Attribute) → Option (List (Str × List Attribute))
  | [] => some []
  | (_, []) :: _ => none
  | (k, a :: as) :: rest => (resolveAttrs rest).map (fun r => (k, [pyMaxAttr a as]) :: r)

/-- `KnowledgeGraphManager.resolve_conflicts`: unknown ids return `None`
leaving the store untouched; otherwise each attribute key keeps only its
single best version (mutating the stored entity). -/
def resolve_conflicts (store : Store) (entity_id : Str) :
    Except PyErr (Store × Option Entity) :=
  match lookupA store entity_id with
  | none => .ok (store, none)
  | some e =>
      match resolveAttrs e.attributes with
      | none => .error .valueError
      | some resolved =>
          let e' := { e with attributes := resolved }
          .ok (setEntry store entity_id e', some e')

/-- Work-context vocabulary from `determine_canonical_locations`. -/
def work_attrs : List Str := [str "job", str "position", str "company", str "work"]

/-- Personal-context vocabulary from `determine_canonical_locations`. -/
def personal_attrs : List Str := [str "family", str "hobby", str "personal"]

/-- Python's `key in entity.attributes`. -/
def hasKey (m : List (Str × List Attribute)) (k : Str) : Bool :=
  m.any (fun kv => kv.1 = k)

/-- Loop body of `KnowledgeGraphManager.determine_canonical_locations` for a
single entity: person entities route on inferred work/personal context,
organizations and projects on their `default` mapping, and entity types
absent from `canonical_mappings` produce no destination entry. -/
def determine_canonical_location (e : Entity) : Option Str :=
  match e.etype with
  | .person =>
      if work_attrs.any (fun k => hasKey e.attributes k) then
        some (str "Professional Journey.md")
      else if personal_attrs.any (fun k => hasKey e.attributes k) then
        some (str "Personal Info.md")
      else
        some (str "Personal Info.md")
  | .organization => some (str "Professional Journey.md")
  | .project => some (str "Projects.md")
  | _ => none

/-- `determine_canonical_locations` over a list of entities: the returned
`file_mappings` dict. -/
def determine_canonical_locations (entities : List Entity) : List (Str × Str) :=
  entities.foldl
    (fun acc e =>
      match determine_canonical_location e with
      | some f => setEntry acc e.id f
      | none => acc)
    []

end KOS

namespace Agents

/-- `EntityType` from `knowledge_agents.py` (a different closed set from the
models module). -/
inductive AEntityType where
  | person
  | organization
  | location
  | concept
  | event
  | object
deriving DecidableEq, Repr

/-- `InformationStatus` from `knowledge_agents.py`. -/
inductive InformationStatus where
  | current
  | historical
  | planned
  | uncertain
deriving DecidableEq, Repr

/-- `Confidence` from `knowledge_agents.py`: a float score in [0,1] (modelled
as a rational) with provenance and timestamp. -/
structure AConfidence where
  value : ℚ
  source : Str
  timestamp : Nat
deriving DecidableEq, Repr

/-- `Entity` from `knowledge_agents.py` (embeddings omitted — no claim
mentions them). `properties` is an insertion-ordered dict. -/
structure AEntity where
  id : Str
  type : AEntityType
  canonical_name : Str
  aliases : List Str
  properties : List (Str × Str)
  confidence : AConfidence
  created_at : Nat
  updated_at : Nat
deriving DecidableEq, Repr

/-- First-occurrence deduplication of a list of strings.  `merge_with` uses
`list(set(a + b))`, whose order CPython leaves unspecified; no theorem below
depends on the order of the alias list. -/
def dedupStr (l : List Str) : List Str :=
  l.foldl (fun acc s => if s ∈ acc then acc else acc ++ [s]) []

/-- `Entity.merge_with` from `knowledge_agents.py`: absent property keys are
copied over; present ones are overwritten only when the incoming entity's
confidence is strictly higher; aliases are unioned; `updated_at` refreshed. -/
def AEntity.merge_with (self other : AEntity) (now : Nat) : AEntity :=
  let props :=
    other.properties.foldl
      (fun acc kv =>
        match KOS.lookupA acc kv.1 with
        | none => acc ++ [kv]
        | some _ =>
            if self.confidence.value < other.confidence.value then
              KOS.setEntry acc kv.1 kv.2
            else acc)
      self.properties
  { self with
      properties := props,
      aliases := dedupStr (self.aliases ++ other.aliases),
      updated_at := now }

/-- `ConflictResolutionAgent.process`: when the incoming side is strictly
newer it wins (`resolve_by_time` returns its second argument); otherwise the
incoming side wins when its confidence is strictly higher
(`resolve_by_confidence` returns its second argument); otherwise the existing
side absorbs the incoming one via `merge_with`. -/
def conflict_process (existing incoming : AEntity) (now : Nat) : AEntity :=
  if existing.updated_at < incoming.updated_at then incoming
  else if existing.confidence.value < incoming.confidence.value then incoming
  else existing.merge_with incoming now

/-- The `routing_rules` table of `CanonicalLocationAgent`: registered
(status, entity-type) pairs map to a destination builder over the entity id. -/
def routing_rule (s : InformationStatus) (t : AEntityType) : Option (Str → Str) :=
  match s, t with
  | .current, .person => some (fun i => str "entities/person/" ++ i ++ str "/current.json")
  | .current, .organization => some (fun i => str "entities/org/" ++ i ++ str "/current.json")
  | .historical, .person => some (fun i => str "entities/person/" ++ i ++ str "/history.json")
  | .historical, .organization => some (fun i => str "entities/org/" ++ i ++ str "/history.json")
  | _, _ => none

/-- `CanonicalLocationAgent.process`: apply the registered rule when one
exists, otherwise fall back to the generic destination built from the id. -/
def location_process (e : AEntity) (s : InformationStatus) : Str :=
  match routing_rule s e.type with
  | some f => f e.id
  | none => str "entities/generic/" ++ e.id ++ str "/data.json"

end Agents

namespace Enhanced

/-- A search-result dict produced by one of the strategies of
`EnhancedKnowledgeService` (`content` preview omitted — no claim mentions
it); `rtype` is the result's `'type'` field naming the strategy, `score` the
raw strategy score. -/
structure SearchResult where
  id : Str
  title : Str
  score : ℚ
  rtype : Str
deriving DecidableEq, Repr

/-- Loop of `deduplicate_results` with the running `seen` id set. -/
def dedupAux (seen : List Str) : List SearchResult → List SearchResult
  | [] => []
  | r :: rest =>
      if r.id ∈ seen then dedupAux seen rest
      else r :: dedupAux (r.id :: seen) rest

/-- `EnhancedKnowledgeService.deduplicate_results`: drop every result whose
`id` was already seen (first occurrence wins). -/
def deduplicate_results (results : List SearchResult) : List SearchResult :=
  dedupAux [] results

/-- Per-strategy weights of `rank_results`
(`{'semantic': 1.0, 'keyword': 0.8, 'entity': 1.2}.get(type, 1.0)`). -/
def weight (t : Str) : ℚ :=
  if t = str "semantic" then 1
  else if t = str "keyword" then 4 / 5
  else if t = str "entity" then 6 / 5
  else 1

/-- One step of the `combined` defaultdict loop of `rank_results`: a known id
accumulates the weighted score, a fresh id appends a new entry whose payload
is this (first) occurrence. -/
def rankStep (acc : List (Str × ℚ × SearchResult)) (r : SearchResult) :
    List (Str × ℚ × SearchResult) :=
  if acc.any (fun kv => kv.1 = r.id) then
    acc.map (fun kv =>
      if kv.1 = r.id then (kv.1, kv.2.1 + r.score * weight r.rtype, kv.2.2) else kv)
  else
    acc ++ [(r.id, r.score * weight r.rtype, r)]

/-- Python's stable descending sort by combined score, expressed as the order
"higher score first, equal scores in insertion order" over index-tagged
entries. -/
def rrel (a b : Nat × Str × ℚ × SearchResult) : Prop :=
  b.2.2.1 < a.2.2.1 ∨ (a.2.2.1 = b.2.2.1 ∧ a.1 ≤ b.1)

instance : DecidableRel rrel := fun a b => by
  unfold rrel; infer_instance

instance : IsTrans (Nat × Str × ℚ × SearchResult) rrel where
  trans a b c hab hbc := by
    rcases hab with h1 | ⟨h1, h1'⟩ <;> rcases hbc with h2 | ⟨h2, h2'⟩
    · exact Or.inl (h2.trans h1)
    · exact Or.inl (h2 ▸ h1)
    · exact Or.inl (h1 ▸ h2)
    · exact Or.inr ⟨h1.trans h2, h1'.trans h2'⟩

instance : IsTotal (Nat × Str × ℚ × SearchResult) rrel where
  total a b := by
    rcases lt_trichotomy a.2.2.1 b.2.2.1 with h | h | h
    · exact Or.inr (Or.inl h)
    · rcases Nat.le_total a.1 b.1 with hi | hi
      · exact Or.inl (Or.inr ⟨h, hi⟩)
      · exact Or.inr (Or.inr ⟨h.symm, hi⟩)
    · exact Or.inl (Or.inl h)

/-- Tag each entry of the `combined` map with its insertion position,
starting at `n`. -/
def tagIdx : Nat → List (Str × ℚ × SearchResult) → List (Nat × Str × ℚ × SearchResult)
  | _, [] => []
  | n, x :: xs => (n, x) :: tagIdx (n + 1) xs

/-- `EnhancedKnowledgeService.rank_results`: build the `combined` map, then
return the payloads sorted by combined score descending (Python's `sorted`
is stable, so equal scores keep insertion order). -/
def rank_results (results : List SearchResult) : List SearchResult :=
  ((tagIdx 0 (List.foldl rankStep [] results)).insertionSort rrel).map
    (fun x => x.2.2.2)

/-- The hybrid pipeline of `EnhancedKnowledgeService.search_knowledge`: the
three strategies' result lists are concatenated, deduplicated, ranked, and
truncated to the top 10. -/
def search_knowledge (semanticR keywordR entityR : List SearchResult) :
    List SearchResult :=
  (rank_results (deduplicate_results (semanticR ++ keywordR ++ entityR))).take 10

/-- Separator inserted by `merge_content` when appending unrelated content. -/
def sep : Str := str "\n\n---\n\n"

/-- Loop of `find_overlap`: try overlap lengths from `min` down to 1. -/
def find_overlap_aux (t1 t2 : Str) : Nat → Str
  | 0 => []
  | i + 1 =>
      if t1.drop (t1.length - (i + 1)) = t2.take (i + 1) then t2.take (i + 1)
      else find_overlap_aux t1 t2 i

/-- `EnhancedKnowledgeService.find_overlap`: the longest suffix of `t1` that
is a prefix of `t2` (empty when none). -/
def find_overlap (t1 t2 : Str) : Str :=
  find_overlap_aux t1 t2 (min t1.length t2.length)

/-- `EnhancedKnowledgeService.merge_content`: keep `existing` unchanged when
`new` already occurs inside it; glue on the non-overlapping tail when more
than half of `new` overlaps; otherwise append `new` behind a separator. -/
def merge_content (existing new : Str) : Str :=
  if new <:+: existing then existing
  else
    let overlap := find_overlap existing new
    if new.length < 2 * overlap.length then existing ++ new.drop overlap.length
    else existing ++ sep ++ new

/-- Deduplication loop of `CodingKnowledgeService.search_code`: results are
deduplicated by the composite key `f"{type}_{id}"`, first occurrence wins. -/
def codingDedupAux (seen : List Str) : List SearchResult → List SearchResult
  | [] => []
  | r :: rest =>
      let key := r.rtype ++ str "_" ++ r.id
      if key ∈ seen then codingDedupAux seen rest
      else r :: codingDedupAux (key :: seen) rest

/-- Composite-key deduplication of `CodingKnowledgeService.search_code`. -/
def coding_dedup (results : List SearchResult) : List SearchResult :=
  codingDedupAux [] results

end Enhanced

namespace KOS

/-- The list of stored values under attribute key `k` of an entity, in
version order. -/
def attrValues (e : Entity) (k : Str) : List Str :=
  (getAttrs e.attributes k).map (fun a => a.value)

/-- The list of stored values under key `k` of the entity stored at `idq`
(empty when no such entity exists). -/
def storeAttrValues (store : Store) (idq k : Str) : List Str :=
  match lookupA store idq with
  | none => []
  | some e => attrValues e k

/-- Example entity with two stored versions under key `k` (values `x`, `y`). -/
def c1Entity : Entity :=
  { id := str "p1", etype := .person, name := str "P", aliases := [],
    attributes := [(str "k",
      [{ key := str "k", value := str "x", confidence := .high,
         source := str "user", timestamp := 1, version := 1 },
       { key := str "k", value := str "y", confidence := .low,
         source := str "user", timestamp := 2, version := 1 }])],
    confidence := .high, created_at := 0, updated_at := 0, sources := [] }

/-- Store holding `c1Entity`. -/
def c1Store : Store := [(str "p1", c1Entity)]

/-- The entity `resolve_conflicts` produces from `c1Entity`: key `k` keeps
only the best version (`y`, since Python compares the confidence strings and
the string `low` is greater than the string `high`). -/
def c1After : Entity :=
  { c1Entity with attributes := [(str "k",
      [{ key := str "k", value := str "y", confidence := .low,
         source := str "user", timestamp := 2, version := 1 }])] }

/-- Example entity with one stored version (value `active`, confidence
`high`) under key `status`. -/
def c3Entity : Entity :=
  { id := str "p1", etype := .person, name := str "P", aliases := [],
    attributes := [(str "status",
      [{ key := str "status", value := str "active", confidence := .high,
         source := str "user", timestamp := 5, version := 1 }])],
    confidence := .high, created_at := 0, updated_at := 0, sources := [] }

/-- Entity with an empty attribute dict. -/
def c8EmptyEntity : Entity :=
  { id := str "a", etype := .person, name := str "A", aliases := [],
    attributes := [], confidence := .high, created_at := 0, updated_at := 0,
    sources := [] }

/-- Store holding only `c8EmptyEntity`. -/
def c8Store : Store := [(str "a", c8EmptyEntity)]

/-- Entity whose attribute key `k` maps to an empty version list. -/
def c8BadEntity : Entity :=
  { c8EmptyEntity with id := str "b", attributes := [(str "k", [])] }

/-- Store holding only `c8BadEntity`. -/
def c8BadStore : Store := [(str "b", c8BadEntity)]

/-- Person entity with a work-vocabulary attribute key (`job`). -/
def c7Work : Entity := { c8EmptyEntity with attributes := [(str "job", [])] }

/-- Person entity with a personal-vocabulary attribute key (`family`). -/
def c7Personal : Entity :=
  { c8EmptyEntity with attributes := [(str "family", [])] }

/-- Person entity with no context attributes. -/
def c7Neither : Entity := c8EmptyEntity

end KOS

namespace Agents

/-- Older entity carrying strictly higher confidence (1.0 at time 5). -/
def c2Older : AEntity :=
  { id := str "e", type := .person, canonical_name := str "E", aliases := [],
    properties := [], confidence := ⟨1, str "s", 0⟩, created_at := 0,
    updated_at := 5 }

/-- Newer entity carrying strictly lower confidence (0.0 at time 10). -/
def c2Newer : AEntity :=
  { c2Older with confidence := ⟨0, str "s", 0⟩, updated_at := 10 }

/-- Entity of an unregistered routing type (`object`). -/
def c4Entity : AEntity := { c2Older with type := .object, id := str "x9" }

end Agents

namespace Enhanced

/-- A semantic-strategy hit on document `d` with raw score 1. -/
def c6Semantic : SearchResult :=
  { id := str "d", title := str "T", score := 1, rtype := str "semantic" }

/-- A keyword-strategy hit on the same document `d` with raw score 5. -/
def c6Keyword : SearchResult :=
  { id := str "d", title := str "T", score := 5, rtype := str "keyword" }

/-- An entity-strategy hit on a second document `e` with raw score 10. -/
def c5Entity : SearchResult :=
  { id := str "e", title := str "U", score := 10, rtype := str "entity" }

end Enhanced


namespace KOS

theorem lookupA_setEntry_self {α : Type} (m : List (Str × α)) (k : Str) (v : α) :
    lookupA (setEntry m k v) k = some v := by
  induction m with
  | nil => simp [setEntry, lookupA]
  | cons kv rest ih =>
      obtain ⟨a, b⟩ := kv
      by_cases h : a = k
      · simp [setEntry, h, lookupA]
      · simp [setEntry, h, lookupA, ih]

theorem lookupA_setEntry_ne {α : Type} (m : List (Str × α)) (k k' : Str) (v : α)
    (h : k' ≠ k) : lookupA (setEntry m k v) k' = lookupA m k' := by
  induction m with
  | nil => simp [setEntry, lookupA, Ne.symm h]
  | cons kv rest ih =>
      obtain ⟨a, b⟩ := kv
      by_cases ha : a = k
      · subst ha
        simp [setEntry, lookupA, Ne.symm h]
      · simp [setEntry, ha, lookupA, ih]

/-- Claim C9: every `Entity` construction or re-validation runs the
`set_updated_at` validator, which discards any caller-supplied `updated_at`
and stores the validation-time clock, so no entity carries an `updated_at`
earlier than its construction time. -/
theorem updated_at_always_now (i : Str) (t : EntityType) (n : Str)
    (ca : Nat) (v : Option Nat) (now : Nat) :
    set_updated_at v now = now
    ∧ (mkEntity i t n ca v now).updated_at = now
    ∧ ¬ (mkEntity i t n ca v now).updated_at < now :=
  ⟨rfl, rfl, Nat.lt_irrefl now⟩

/-- Claim C3 (code evaluation at the failing input): re-observing the value
`active` (stored confidence `high`) with incoming confidence `uncertain`
*downgrades* the stored confidence to `uncertain`, because `add_attribute`
compares the enum value strings and `"uncertain" > "high"` lexicographically,
although `uncertain` is strictly below `high` in the intended ordinal
order. -/
theorem confidence_downgrade_eval :
    (getAttrs ((c3Entity.add_attribute (str "status") (str "active")
        (str "user") .uncertain 6).attributes) (str "status")).map
        (fun a => a.confidence) = [.uncertain]
    ∧ ordRank .uncertain < ordRank .high
    ∧ pyStrGt ConfidenceLevel.uncertain.val ConfidenceLevel.high.val = true :=
  ⟨by rfl, by decide, by decide⟩

/-- Claim C7: a person entity routes to the work destination whenever its
attribute keys meet the work vocabulary (work context wins when both match),
otherwise to the personal destination when they meet the personal
vocabulary, and to the personal destination by default. -/
theorem person_routing (e : Entity) (hp : e.etype = .person) :
    (work_attrs.any (fun k => hasKey e.attributes k) = true →
      determine_canonical_location e = some (str "Professional Journey.md"))
    ∧ (work_attrs.any (fun k => hasKey e.attributes k) = false →
        personal_attrs.any (fun k => hasKey e.attributes k) = true →
        determine_canonical_location e = some (str "Personal Info.md"))
    ∧ (work_attrs.any (fun k => hasKey e.attributes k) = false →
        personal_attrs.any (fun k => hasKey e.attributes k) = false →
        determine_canonical_location e = some (str "Personal Info.md")) := by
  refine ⟨?_, ?_, ?_⟩ <;> intros <;> simp [determine_canonical_location, hp, *]

theorem person_routing_witness :
    determine_canonical_location c7Work = some (str "Professional Journey.md")
    ∧ determine_canonical_location c7Personal = some (str "Personal Info.md")
    ∧ determine_canonical_location c7Neither = some (str "Personal Info.md") :=
  ⟨(person_routing c7Work rfl).1 (by decide),
   (person_routing c7Personal rfl).2.1 (by decide) (by decide),
   (person_routing c7Neither rfl).2.2 (by decide) (by decide)⟩

end KOS

namespace Agents

/-- Claim C2 (counterexample): with stored entity `c2Newer` (timestamp 10,
confidence 0.0) and incoming `c2Older` (timestamp 5, confidence 1.0), one
side is strictly newer, yet `ConflictResolutionAgent.process` returns the
*older* side: the temporal branch only fires when the incoming side is newer,
and otherwise the higher-confidence incoming wins. -/
theorem temporal_counterexample :
    conflict_process c2Newer c2Older 11 = c2Older
    ∧ c2Older.updated_at < c2Newer.updated_at
    ∧ c2Older ≠ c2Newer := by
  have h1 : ¬ c2Newer.updated_at < c2Older.updated_at := by decide
  have h2 : c2Newer.confidence.value < c2Older.confidence.value := zero_lt_one
  refine ⟨by simp [conflict_process, h1, h2], by decide, ?_⟩
  intro h
  exact absurd (congrArg AEntity.updated_at h) (by decide)

/-- Claim C2 (amended): the temporal rule is applied only in the direction
existing-older/incoming-newer — a strictly newer incoming entity wins
outright regardless of confidence; when the stored side is at least as new,
the temporal rule does not apply and the incoming side wins exactly when its
confidence is strictly higher. -/
theorem temporal_rule_amended (ex inc : AEntity) (now : Nat) :
    (ex.updated_at < inc.updated_at → conflict_process ex inc now = inc)
    ∧ (¬ ex.updated_at < inc.updated_at →
        ex.confidence.value < inc.confidence.value →
        conflict_process ex inc now = inc)
    ∧ (¬ ex.updated_at < inc.updated_at →
        ¬ ex.confidence.value < inc.confidence.value →
        conflict_process ex inc now = ex.merge_with inc now) :=
  ⟨fun h => by simp [conflict_process, h],
   fun h h2 => by simp [conflict_process, h, h2],
   fun h h2 => by simp [conflict_process, h, h2]⟩

theorem temporal_rule_amended_witness :
    conflict_process c2Older c2Newer 11 = c2Newer
    ∧ conflict_process c2Newer c2Older 11 = c2Older :=
  ⟨(temporal_rule_amended c2Older c2Newer 11).1 (by decide),
   (temporal_rule_amended c2Newer c2Older 11).2.1 (by decide) zero_lt_one⟩

theorem append_ne_nil_left (a b : Str) (h : a ≠ []) : a ++ b ≠ [] :=
  fun hc => h (List.append_eq_nil.mp hc).1

/-- Claim C4: canonical-location routing is total — for every entity and
every status it returns a non-empty destination, and any (status, type)
combination without a registered rule falls back to the generic destination
built only from the entity id. -/
theorem routing_totality (e : AEntity) (s : InformationStatus) :
    location_process e s ≠ []
    ∧ (routing_rule s e.type = none →
        location_process e s = str "entities/generic/" ++ e.id ++ str "/data.json") := by
  obtain ⟨i, t, cn, al, pr, cf, ca, ua⟩ := e
  cases s <;> cases t <;>
    exact ⟨append_ne_nil_left _ _ (append_ne_nil_left _ _ (by decide)),
           fun h => by first | rfl | exact Option.noConfusion h⟩

theorem routing_totality_witness :
    location_process c4Entity .planned ≠ []
    ∧ location_process c4Entity .planned
        = str "entities/generic/" ++ c4Entity.id ++ str "/data.json" :=
  ⟨(routing_totality c4Entity .planned).1,
   (routing_totality c4Entity .planned).2 rfl⟩

end Agents

namespace Enhanced

/-- Claim C10: `merge_content` returns `existing` unchanged whenever `new`
already occurs as a contiguous substring, and in every case the merged
result begins with `existing` as a prefix — appended content never truncates
or reorders what is already stored. -/
theorem merge_content_spec (existing new : Str) :
    (new <:+: existing → merge_content existing new = existing)
    ∧ existing <+: merge_content existing new := by
  constructor
  · intro h
    simp [merge_content, h]
  · by_cases h : new <:+: existing
    · simp only [merge_content, if_pos h]
      exact ⟨[], List.append_nil existing⟩
    · simp only [merge_content, if_neg h]
      split
      · exact ⟨_, rfl⟩
      · rw [List.append_assoc]
        exact ⟨_, rfl⟩

theorem merge_content_spec_witness :
    merge_content (str "hello") (str "ell") = str "hello"
    ∧ str "hello" <+: merge_content (str "hello") (str "ell") :=
  ⟨(merge_content_spec (str "hello") (str "ell")).1 (by decide),
   (merge_content_spec (str "hello") (str "ell")).2⟩

end Enhanced

namespace KOS

theorem resolveAttrs_isSome (l : List (Str × List Attribute))
    (h : ∀ kv ∈ l, kv.2 ≠ []) : ∃ r, resolveAttrs l = some r := by
  induction l with
  | nil => exact ⟨[], rfl⟩
  | cons kv rest ih =>
      obtain ⟨k, vs⟩ := kv
      cases vs with
      | nil => exact absurd rfl (h (k, []) (List.mem_cons_self _ _))
      | cons a as =>
          obtain ⟨r, hr⟩ := ih (fun kv hkv => h kv (List.mem_cons_of_mem _ hkv))
          exact ⟨(k, [pyMaxAttr a as]) :: r, by simp [resolveAttrs, hr]⟩

/-- Claim C8 (counterexample to the empty-version-list part): a stored
entity whose attribute key `k` maps to an empty version list makes
`resolve_conflicts` raise `ValueError` (Python's `max` of an empty
sequence), instead of resolving to a no-op. -/
theorem resolve_conflicts_counterexample :
    resolve_conflicts c8BadStore (str "b") = .error .valueError
    ∧ lookupA c8BadStore (str "b") = some c8BadEntity := ⟨rfl, rfl⟩

/-- Claim C8 (amended): resolving an unknown entity id leaves the store
unchanged and reports "not found" (`None`) without raising; for a stored
entity an absent attribute key is harmless — in particular an empty
attribute dict resolves to a no-op — and no error is possible as long as
every present key holds at least one version; only a key mapping to an
empty version list raises. -/
theorem resolve_conflicts_error_handling (store : Store) (id_ : Str) :
    (lookupA store id_ = none → resolve_conflicts store id_ = .ok (store, none))
    ∧ (∀ e, lookupA store id_ = some e → e.attributes = [] →
        resolve_conflicts store id_ = .ok (setEntry store id_ e, some e))
    ∧ (∀ e, lookupA store id_ = some e → (∀ kv ∈ e.attributes, kv.2 ≠ []) →
        ∃ p, resolve_conflicts store id_ = .ok p) := by
  refine ⟨fun h => by simp [resolve_conflicts, h], ?_, ?_⟩
  · intro e he hattr
    have h2 : ({ e with attributes := ([] : List (Str × List Attribute)) }) = e := by
      rw [← hattr]
    simp [resolve_conflicts, he, hattr, resolveAttrs, h2]
  · intro e he hne
    obtain ⟨r, hr⟩ := resolveAttrs_isSome e.attributes hne
    exact ⟨(setEntry store id_ { e with attributes := r }, some { e with attributes := r }),
           by simp [resolve_conflicts, he, hr]⟩

theorem resolve_conflicts_error_handling_witness :
    resolve_conflicts c8Store (str "zz") = .ok (c8Store, none)
    ∧ resolve_conflicts c8Store (str "a")
        = .ok (setEntry c8Store (str "a") c8EmptyEntity, some c8EmptyEntity)
    ∧ ∃ p, resolve_conflicts c8Store (str "a") = .ok p :=
  ⟨(resolve_conflicts_error_handling c8Store (str "zz")).1 (by decide),
   (resolve_conflicts_error_handling c8Store (str "a")).2.1 c8EmptyEntity
     (by decide) (by decide),
   (resolve_conflicts_error_handling c8Store (str "a")).2.2 c8EmptyEntity
     (by decide) (by decide)⟩

end KOS

namespace KOS

theorem getAttrs_setEntry_self (m : List (Str × List Attribute)) (k : Str)
    (x : List Attribute) : getAttrs (setEntry m k x) k = x := by
  simp [getAttrs, lookupA_setEntry_self]

theorem getAttrs_setEntry_ne (m : List (Str × List Attribute)) (k k' : Str)
    (x : List Attribute) (h : k' ≠ k) : getAttrs (setEntry m k x) k' = getAttrs m k' := by
  simp [getAttrs, lookupA_setEntry_ne _ _ _ _ h]

theorem updateFirst_map_value (p : Attribute → Bool) (f : Attribute → Attribute)
    (hf : ∀ a, (f a).value = a.value) (l : List Attribute) :
    (updateFirst p f l).map (fun a => a.value) = l.map (fun a => a.value) := by
  induction l with
  | nil => rfl
  | cons a as ih =>
      by_cases h : p a
      · simp [updateFirst, h, hf]
      · simp [updateFirst, h, ih]

theorem add_attribute_values (e : Entity) (key value source : Str)
    (conf : ConfidenceLevel) (now : Nat) (k : Str) :
    ∃ ext, attrValues (e.add_attribute key value source conf now) k
         = attrValues e k ++ ext := by
  by_cases hk : k = key
  · subst hk
    by_cases hany : (getAttrs e.attributes k).any (fun a => a.value == value) = true
    · refine ⟨[], ?_⟩
      simp only [attrValues, Entity.add_attribute, getAttrs_setEntry_self, hany, if_true]
      rw [List.append_nil]
      exact updateFirst_map_value _
        (fun a =>
          { a with
            confidence :=
              if pyStrGt conf.val a.confidence.val then conf else a.confidence,
            timestamp := now })
        (fun a => rfl) _
    · refine ⟨[value], ?_⟩
      simp only [attrValues, Entity.add_attribute, getAttrs_setEntry_self, hany, if_false,
        Bool.false_eq_true]
      simp
  · exact ⟨[], by
      simp only [attrValues, Entity.add_attribute, getAttrs_setEntry_ne _ _ _ _ hk]
      rw [List.append_nil]⟩

theorem foldl_add_values (as : List Attribute) (e : Entity) (key source : Str)
    (now : Nat) (k : Str) :
    ∃ ext, attrValues
        (as.foldl (fun acc a => acc.add_attribute key a.value source a.confidence now) e) k
      = attrValues e k ++ ext := by
  induction as generalizing e with
  | nil => exact ⟨[], by simp⟩
  | cons a as ih =>
      obtain ⟨ext2, h2⟩ := ih (e.add_attribute key a.value source a.confidence now)
      obtain ⟨ext1, h1⟩ := add_attribute_values e key a.value source a.confidence now k
      exact ⟨ext1 ++ ext2, by
        simp only [List.foldl_cons]
        rw [h2, h1, List.append_assoc]⟩

theorem mergeAttrLoop_values (l : List (Str × List Attribute)) (e : Entity)
    (source : Str) (now : Nat) (k : Str) :
    ∃ ext, attrValues (mergeAttrLoop e l source now) k = attrValues e k ++ ext := by
  induction l generalizing e with
  | nil => exact ⟨[], by simp [mergeAttrLoop]⟩
  | cons kv rest ih =>
      obtain ⟨ext1, h1⟩ := foldl_add_values kv.2 e kv.1 source now k
      obtain ⟨ext2, h2⟩ :=
        ih (kv.2.foldl (fun acc a => acc.add_attribute kv.1 a.value source a.confidence now) e)
      refine ⟨ext1 ++ ext2, ?_⟩
      simp only [mergeAttrLoop, List.foldl_cons] at h2 ⊢
      rw [h2, h1, List.append_assoc]

/-- Claim C1 (counterexample): calling `resolve_conflicts` on an entity with
two stored versions (`x`, then `y`) under key `k` leaves a single stored
version — the prior version `x` is removed, so the version count is not
monotonically non-decreasing across conflict-resolution calls — and
re-observing the stored value `x` through `add_attribute` mutates that
version's stored timestamp (1 becomes 9). -/
theorem history_counterexample :
    resolve_conflicts c1Store (str "p1") = .ok ([(str "p1", c1After)], some c1After)
    ∧ attrValues c1Entity (str "k") = [str "x", str "y"]
    ∧ attrValues c1After (str "k") = [str "y"]
    ∧ ¬ (attrValues c1Entity (str "k")).length
        ≤ (attrValues c1After (str "k")).length
    ∧ (getAttrs c1Entity.attributes (str "k")).map (fun a => a.timestamp) = [1, 2]
    ∧ (getAttrs ((c1Entity.add_attribute (str "k") (str "x") (str "user")
        .high 9).attributes) (str "k")).map (fun a => a.timestamp) = [9, 2] :=
  ⟨rfl, rfl, rfl, by decide, rfl, rfl⟩

/-- Claim C1 (amended): attribute history is append-only under entity merge
(the ingest path): for every entity id and key, the stored value list after
`merge_entity` is the previous list extended at the end — no stored value is
mutated, reordered or removed, and the version count cannot decrease.
(`add_attribute` does refresh the *timestamp* of a re-observed version, and
`resolve_conflicts` discards all but the best version per key; the append-only
guarantee holds for the stored values under ingest/merge only.) -/
theorem history_append_only_amended (store : Store) (newE : Entity)
    (source : Str) (now : Nat) (idq k : Str) :
    (∃ ext, storeAttrValues (merge_entity store newE source now).1 idq k
          = storeAttrValues store idq k ++ ext)
    ∧ (storeAttrValues store idq k).length
        ≤ (storeAttrValues (merge_entity store newE source now).1 idq k).length := by
  have main : ∃ ext, storeAttrValues (merge_entity store newE source now).1 idq k
      = storeAttrValues store idq k ++ ext := by
    cases hm : lookupA store newE.id with
    | none =>
        by_cases hid : idq = newE.id
        · subst hid
          refine ⟨attrValues newE k, ?_⟩
          simp [merge_entity, hm, storeAttrValues, lookupA_setEntry_self]
        · refine ⟨[], ?_⟩
          simp [merge_entity, hm, storeAttrValues, lookupA_setEntry_ne _ _ _ _ hid]
    | some existing =>
        by_cases hid : idq = newE.id
        · subst hid
          obtain ⟨ext, hext⟩ := mergeAttrLoop_values newE.attributes existing source now k
          refine ⟨ext, ?_⟩
          simp only [merge_entity, hm, storeAttrValues, lookupA_setEntry_self]
          exact hext
        · refine ⟨[], ?_⟩
          simp [merge_entity, hm, storeAttrValues, lookupA_setEntry_ne _ _ _ _ hid]
  refine ⟨main, ?_⟩
  obtain ⟨ext, h⟩ := main
  rw [h, List.length_append]
  exact Nat.le_add_right _ _

end KOS

namespace Enhanced

theorem mem_dedupAux_not_seen :
    ∀ (l : List SearchResult) (seen : List Str) (r : SearchResult),
      r ∈ dedupAux seen l → r.id ∉ seen := by
  intro l
  induction l with
  | nil => intro seen r h; simp [dedupAux] at h
  | cons a l ih =>
      intro seen r h
      by_cases ha : a.id ∈ seen
      · rw [dedupAux, if_pos ha] at h
        exact ih seen r h
      · rw [dedupAux, if_neg ha] at h
        rcases List.mem_cons.mp h with rfl | h2
        · exact ha
        · intro hs
          exact (ih _ _ h2) (List.mem_cons_of_mem _ hs)

theorem dedupAux_pairwise :
    ∀ (l : List SearchResult) (seen : List Str),
      (dedupAux seen l).Pairwise (fun a b => a.id ≠ b.id) := by
  intro l
  induction l with
  | nil => intro seen; simp [dedupAux]
  | cons a l ih =>
      intro seen
      by_cases ha : a.id ∈ seen
      · rw [dedupAux, if_pos ha]; exact ih seen
      · rw [dedupAux, if_neg ha]
        refine List.pairwise_cons.mpr ⟨?_, ih _⟩
        intro b hb he
        exact (mem_dedupAux_not_seen l (a.id :: seen) b hb)
          (he ▸ List.mem_cons_self _ _)

theorem dedupAux_find :
    ∀ (l : List SearchResult) (seen : List Str) (r : SearchResult),
      r ∈ dedupAux seen l → l.find? (fun x => x.id == r.id) = some r := by
  intro l
  induction l with
  | nil => intro seen r h; simp [dedupAux] at h
  | cons a l ih =>
      intro seen r h
      by_cases ha : a.id ∈ seen
      · rw [dedupAux, if_pos ha] at h
        have hr := mem_dedupAux_not_seen l seen r h
        have hne : ¬ (a.id == r.id) = true := by
          simp only [beq_iff_eq]
          intro he; exact hr (he ▸ ha)
        rw [List.find?_cons_of_neg (p := fun x => x.id == r.id) l hne]
        exact ih _ _ h
      · rw [dedupAux, if_neg ha] at h
        rcases List.mem_cons.mp h with rfl | h2
        · rw [List.find?_cons_of_pos (p := fun x => x.id == r.id) l (by simp)]
        · have hr := mem_dedupAux_not_seen l (a.id :: seen) r h2
          have hne : ¬ (a.id == r.id) = true := by
            simp only [beq_iff_eq]
            intro he; exact hr (he ▸ List.mem_cons_self _ _)
          rw [List.find?_cons_of_neg (p := fun x => x.id == r.id) l hne]
          exact ih _ _ h2

theorem rankFold_eq :
    ∀ (l : List SearchResult) (acc : List (Str × ℚ × SearchResult)),
      l.Pairwise (fun a b => a.id ≠ b.id) →
      (∀ r ∈ l, ∀ kv ∈ acc, kv.1 ≠ r.id) →
      List.foldl rankStep acc l
        = acc ++ l.map (fun r => (r.id, r.score * weight r.rtype, r)) := by
  intro l
  induction l with
  | nil => intro acc _ _; simp
  | cons a l ih =>
      intro acc hp hacc
      have hcond : (acc.any (fun kv => kv.1 = a.id)) = false := by
        rw [List.any_eq_false]
        intro kv hkv
        simp only [decide_eq_true_eq]
        exact hacc a (List.mem_cons_self _ _) kv hkv
      have hcond2 : ∀ r ∈ l, ∀ kv ∈ acc ++ [(a.id, a.score * weight a.rtype, a)],
          kv.1 ≠ r.id := by
        intro r hr kv hkv
        rcases List.mem_append.mp hkv with h1 | h1
        · exact hacc r (List.mem_cons_of_mem _ hr) kv h1
        · have h3 : kv = (a.id, a.score * weight a.rtype, a) := by simpa using h1
          subst h3
          exact (List.pairwise_cons.mp hp).1 r hr
      calc List.foldl rankStep acc (a :: l)
          = List.foldl rankStep (rankStep acc a) l := by rw [List.foldl_cons]
        _ = List.foldl rankStep (acc ++ [(a.id, a.score * weight a.rtype, a)]) l := by
              simp only [rankStep]
              rw [if_neg (by simp [hcond])]
        _ = (acc ++ [(a.id, a.score * weight a.rtype, a)])
              ++ l.map (fun r => (r.id, r.score * weight r.rtype, r)) :=
              ih _ (List.Pairwise.of_cons hp) hcond2
        _ = acc ++ (a :: l).map (fun r => (r.id, r.score * weight r.rtype, r)) := by
              simp

theorem tagIdx_proj :
    ∀ (n : Nat) (Y : List (Str × ℚ × SearchResult)),
      (tagIdx n Y).map (fun x => x.2.2.2) = Y.map (fun y => y.2.2) := by
  intro n Y
  induction Y generalizing n with
  | nil => rfl
  | cons y ys ih => simp [tagIdx, ih]

theorem rank_results_perm (d : List SearchResult)
    (hd : d.Pairwise (fun a b => a.id ≠ b.id)) : (rank_results d).Perm d := by
  have hfold : List.foldl rankStep [] d
      = d.map (fun r => (r.id, r.score * weight r.rtype, r)) := by
    simpa using rankFold_eq d [] hd (by simp)
  refine ((List.perm_insertionSort rrel _).map _).trans ?_
  rw [tagIdx_proj, hfold]
  have hmm : (d.map (fun r => (r.id, r.score * weight r.rtype, r))).map
      (fun y : Str × ℚ × SearchResult => y.2.2) = d := by
    rw [List.map_map]
    exact List.map_id d
  rw [hmm]

/-- Claim C5: the hybrid search pipeline (dedup, rank, truncate) returns no
two results with the same (type, id) composite key — in fact no two with the
same id at all — and every returned result is exactly the first occurrence
of its id in the concatenated strategy output, so the first-discovered
payload is the one kept. -/
theorem hybrid_dedup (sem kw ent : List SearchResult) :
    (search_knowledge sem kw ent).Pairwise
      (fun a b => (a.rtype, a.id) ≠ (b.rtype, b.id))
    ∧ ∀ r ∈ search_knowledge sem kw ent,
        (sem ++ kw ++ ent).find? (fun x => x.id == r.id) = some r := by
  have hd : (deduplicate_results (sem ++ kw ++ ent)).Pairwise
      (fun a b => a.id ≠ b.id) := dedupAux_pairwise (sem ++ kw ++ ent) []
  have hperm := rank_results_perm (deduplicate_results (sem ++ kw ++ ent)) hd
  have hpair2 : (rank_results (deduplicate_results (sem ++ kw ++ ent))).Pairwise
      (fun a b => a.id ≠ b.id) :=
    (hperm.pairwise_iff (fun hab => Ne.symm hab)).mpr hd
  constructor
  · have ht : (search_knowledge sem kw ent).Pairwise (fun a b => a.id ≠ b.id) :=
      hpair2.sublist (List.take_sublist _ _)
    exact ht.imp (fun h hc => h (congrArg Prod.snd hc))
  · intro r hr
    have hr2 : r ∈ rank_results (deduplicate_results (sem ++ kw ++ ent)) :=
      List.mem_of_mem_take hr
    exact dedupAux_find (sem ++ kw ++ ent) [] r (hperm.mem_iff.mp hr2)

theorem hybrid_dedup_witness :
    (search_knowledge [c6Semantic] [c6Keyword] []).Pairwise
      (fun a b => (a.rtype, a.id) ≠ (b.rtype, b.id))
    ∧ ([c6Semantic] ++ [c6Keyword] ++ []).find?
        (fun x => x.id == c6Semantic.id) = some c6Semantic :=
  ⟨(hybrid_dedup [c6Semantic] [c6Keyword] []).1,
   (hybrid_dedup [c6Semantic] [c6Keyword] []).2 c6Semantic (by decide)⟩

/-- Claim C6 (counterexample): the document `d` is returned by both the
semantic strategy (raw score 1) and the keyword strategy (raw score 5), but
because `search_knowledge` deduplicates *before* ranking, the combined score
entry holds only the first occurrence's weighted score 1·1.0 = 1, not the
claimed cross-strategy sum 1·1.0 + 5·0.8 = 5. -/
theorem hybrid_rank_counterexample :
    List.foldl rankStep [] (deduplicate_results [c6Semantic, c6Keyword])
      = [(str "d", c6Semantic.score * weight c6Semantic.rtype, c6Semantic)]
    ∧ c6Semantic.score * weight c6Semantic.rtype = 1
    ∧ c6Semantic.score * weight c6Semantic.rtype
        + c6Keyword.score * weight c6Keyword.rtype = 5
    ∧ (1 : ℚ) ≠ 5 := by
  have hws : weight (str "semantic") = 1 := by simp [weight]
  have hk1 : ¬ (str "keyword" = str "semantic") := by decide
  have hwk : weight (str "keyword") = 4 / 5 := by
    simp only [weight, if_neg hk1, eq_self_iff_true, if_true]
  refine ⟨rfl, ?_, ?_, by norm_num⟩
  · show (1 : ℚ) * weight (str "semantic") = 1
    rw [hws, mul_one]
  · show (1 : ℚ) * weight (str "semantic") + 5 * weight (str "keyword") = 5
    rw [hws, hwk]
    norm_num

/-- Claim C6 (amended): because deduplication runs before ranking, the
combined score of every item in the hybrid ranking equals the raw score of
its *first-discovered* occurrence multiplied by that single strategy's weight
(semantic 1.0, keyword 0.8, entity 1.2) — cross-strategy accumulation never
happens — and the ranked list is sorted by combined score descending with
ties kept in discovery order (the `rrel` order). -/
theorem hybrid_rank_amended (raw : List SearchResult) :
    List.foldl rankStep [] (deduplicate_results raw)
      = (deduplicate_results raw).map (fun r => (r.id, r.score * weight r.rtype, r))
    ∧ (∀ kv ∈ List.foldl rankStep [] (deduplicate_results raw),
        raw.find? (fun x => x.id == kv.2.2.id) = some kv.2.2
        ∧ kv.2.1 = kv.2.2.score * weight kv.2.2.rtype)
    ∧ ((tagIdx 0 (List.foldl rankStep [] (deduplicate_results raw))).insertionSort
        rrel).Sorted rrel := by
  have hd := dedupAux_pairwise raw []
  have hfold : List.foldl rankStep [] (deduplicate_results raw)
      = (deduplicate_results raw).map (fun r => (r.id, r.score * weight r.rtype, r)) := by
    simpa using rankFold_eq (deduplicate_results raw) [] hd (by simp)
  refine ⟨hfold, ?_, List.sorted_insertionSort rrel _⟩
  intro kv hkv
  rw [hfold] at hkv
  obtain ⟨r, hr, rfl⟩ := List.mem_map.mp hkv
  exact ⟨dedupAux_find raw [] r hr, rfl⟩

theorem hybrid_rank_amended_witness :
    [c6Semantic].find? (fun x => x.id == c6Semantic.id) = some c6Semantic
    ∧ c6Semantic.score * weight c6Semantic.rtype
        = c6Semantic.score * weight c6Semantic.rtype :=
  (hybrid_rank_amended [c6Semantic]).2.1
    (c6Semantic.id, c6Semantic.score * weight c6Semantic.rtype, c6Semantic)
    (List.mem_singleton.mpr rfl)

end Enhanced
